import Mathlib

/-!
Shallow embedding of the arcade-football 1v1 game: the physics worker
(`physicsWorker.js`: goal detection, reset, snapshot emission, input/jump
handling) and the main-thread match logic (`main.js`: match timer state
machine, goal-event scoring, AI decision policy, replay load and playback).
Positions, velocities and millisecond times are JS numbers, modelled as ℚ.
-/

namespace Football

/-- World width in metres (`WORLD_WIDTH = 10` in physicsWorker.js). -/
def WORLD_WIDTH : ℚ := 10

/-- World height in metres (`WORLD_HEIGHT = 5`). -/
def WORLD_HEIGHT : ℚ := 5

/-- Player body radius (`PLAYER_RADIUS = 0.3`). -/
def PLAYER_RADIUS : ℚ := 3/10

/-- A dynamic body's kinematic state: position and linear velocity,
as read via `GetPosition()` / `GetLinearVelocity()`. -/
structure Body2 where
  x : ℚ
  y : ℚ
  vx : ℚ
  vy : ℚ
deriving DecidableEq, Repr

/-- The `bodies` map of the worker: exactly the ball and two players. -/
structure WorldState where
  ball : Body2
  p1 : Body2
  p2 : Body2
deriving DecidableEq, Repr

/-- Which side is credited with a goal (`scorer` field of the goal message). -/
inductive Side where
  | left
  | right
deriving DecidableEq, Repr

/-- A message posted by the worker: either a discrete goal event or the
per-tick state snapshot (`postMessage` calls in `stepWorld`). -/
inductive Msg where
  | goal (scorer : Side)
  | state (snap : WorldState)
deriving DecidableEq, Repr

/-- The `resetPositions()` teleport: ball teleported to `(WORLD_WIDTH/2, WORLD_HEIGHT-1)`,
players to `(2,1)` and `(WORLD_WIDTH-2,1)`, all linear velocities zeroed. -/
def resetState : WorldState :=
  ⟨⟨WORLD_WIDTH / 2, WORLD_HEIGHT - 1, 0, 0⟩, ⟨2, 1, 0, 0⟩, ⟨WORLD_WIDTH - 2, 1, 0, 0⟩⟩

/-- Goal detection in `stepWorld`: ball x below `-0.5` credits the right
side, above `WORLD_WIDTH + 0.5` credits the left side, otherwise none. -/
def detectGoal (ballX : ℚ) : Option Side :=
  if ballX < -(1/2) then some Side.right
  else if ballX > WORLD_WIDTH + 1/2 then some Side.left
  else none

/-- One worker tick after `world.Step`: `stepWorld` parameterised by the
post-step body states. On a detected goal it posts the goal message and
calls `resetPositions()` before building the snapshot, so the snapshot
reflects the reset state; otherwise the snapshot is the post-step state.
Exactly the messages posted during the tick are returned, in order. -/
def stepWorld (post : WorldState) : List Msg :=
  match detectGoal post.ball.x with
  | some g => [Msg.goal g, Msg.state resetState]
  | none => [Msg.state post]

/-- The state snapshots among a tick's posted messages. -/
def stateMsgs (msgs : List Msg) : List WorldState :=
  msgs.filterMap (fun m => match m with | Msg.state s => some s | _ => none)

/-- Movement/jump intent carried by an `input` message (`data.input`). -/
structure Input where
  left : Bool
  right : Bool
  jump : Bool
deriving DecidableEq, Repr

/-- The worker's `handleInput` applied to a body that exists: reads the current velocity,
sets horizontal velocity to `-4`/`4`/`0` depending on the pressed directions
(opposing presses cancel), keeps the vertical velocity, then applies the jump
impulse (`ApplyLinearImpulse` of `6.2 * mass`, i.e. `vy += 6.2`) only when
`pos.y <= PLAYER_RADIUS + 0.05` and `|vel.y| < 0.1`. -/
def handleInput (b : Body2) (inp : Input) : Body2 :=
  let vx : ℚ := if inp.left ∧ ¬ inp.right then -4 else if inp.right ∧ ¬ inp.left then 4 else 0
  let b1 : Body2 := { b with vx := vx }
  if inp.jump ∧ b.y ≤ PLAYER_RADIUS + 1/20 ∧ |b.vy| < 1/10 then
    { b1 with vy := b1.vy + 62/10 }
  else b1

/-- Match bookkeeping of `startMatch`: scores, countdown timer, overtime
flag, and whether `endMatch()` has run (which destroys the ticker and
terminates the worker, so an ended match receives no further updates). -/
structure MatchState where
  scoreLeft : Nat
  scoreRight : Nat
  timeLeftMs : ℚ
  overtime : Bool
  ended : Bool
deriving DecidableEq, Repr

/-- The timer block at the top of the per-frame `update`:
`timeLeftMs -= deltaMS`; if regulation expired (`<= 0`) a tied score enters
overtime with `timeLeftMs = 30 * 1000`, an untied score ends the match;
if overtime expired the match ends; otherwise play continues. -/
def timerStep (s : MatchState) (deltaMS : ℚ) : MatchState :=
  if s.ended then s
  else
    let t := s.timeLeftMs - deltaMS
    if ¬ s.overtime ∧ t ≤ 0 then
      if s.scoreLeft = s.scoreRight then
        { s with overtime := true, timeLeftMs := 30 * 1000 }
      else
        { s with timeLeftMs := t, ended := true }
    else if s.overtime ∧ t ≤ 0 then
      { s with timeLeftMs := t, ended := true }
    else
      { s with timeLeftMs := t }

/-- The worker `goal` message handler in `startMatch`: increments the
scoring side's counter, then ends the match immediately if in overtime
(golden goal). An ended match has terminated its worker, so no event. -/
def goalEvent (s : MatchState) (scorer : Side) : MatchState :=
  if s.ended then s
  else
    let s1 := match scorer with
      | Side.left => { s with scoreLeft := s.scoreLeft + 1 }
      | Side.right => { s with scoreRight := s.scoreRight + 1 }
    if s1.overtime then { s1 with ended := true } else s1

/-- One persisted replay frame (`replayFrames` entries): positions only,
plus scores and the remaining time at sampling. -/
structure FramePos where
  x : ℚ
  y : ℚ
deriving DecidableEq, Repr

/-- A recorded frame of a replay. -/
structure ReplayFrame where
  ball : FramePos
  p1 : FramePos
  p2 : FramePos
  scoreLeft : Nat
  scoreRight : Nat
  timeLeft : ℚ
deriving DecidableEq, Repr

/-- A persisted replay record (`record` built in `endMatch`). -/
structure ReplayRecord where
  timestamp : ℚ
  aiLevel : String
  finalScore : String
  frames : List ReplayFrame
deriving DecidableEq, Repr

/-- Parsing of the persisted replay array (`JSON.parse`) is all-or-nothing: it yields
the record list only when every serialized element is well-formed, and
throws (here: `none`) as soon as any element is malformed. A stored element
is modelled as `some r` when it parses to record `r` and `none` when
malformed. -/
def parseReplays : List (Option ReplayRecord) → Option (List ReplayRecord)
  | [] => some []
  | none :: _ => none
  | some r :: rest =>
    match parseReplays rest with
    | some rs => some (r :: rs)
    | none => none

/-- The `loadReplays()` function: reads `localStorage.getItem('replays')` (`none` when
absent), parses it inside `try { ... } catch (e) { replays = [] }` — a
missing value loads `[]`, a successful parse loads the whole list, and any
parse failure resets the collection to `[]`. -/
def loadReplays (stored : Option (List (Option ReplayRecord))) : List ReplayRecord :=
  match stored with
  | none => []
  | some blobs =>
    match parseReplays blobs with
    | some rs => rs
    | none => []

/-- C1: for a live match, regulation expiring (`timeLeftMs - δ ≤ 0`) with a
tied score transitions to overtime with the timer reset to exactly 30000 ms;
expiring with an untied score transitions directly to ended; and during
overtime any goal event immediately ends the match, whatever the remaining
time is. -/
theorem matchPhaseTransitions (s : MatchState) (δ : ℚ) (scorer : Side)
    (hne : s.ended = false) :
    (s.overtime = false → s.timeLeftMs - δ ≤ 0 → s.scoreLeft = s.scoreRight →
      (timerStep s δ).overtime = true ∧ (timerStep s δ).timeLeftMs = 30000 ∧
      (timerStep s δ).ended = false) ∧
    (s.overtime = false → s.timeLeftMs - δ ≤ 0 → s.scoreLeft ≠ s.scoreRight →
      (timerStep s δ).ended = true) ∧
    (s.overtime = true → (goalEvent s scorer).ended = true) := by
  refine ⟨?_, ?_, ?_⟩
  · intro hov hexp htie
    have hexp2 : s.timeLeftMs ≤ δ := by linarith
    norm_num [timerStep, hne, hov, htie, hexp2]
  · intro hov hexp htie
    have hexp2 : s.timeLeftMs ≤ δ := by linarith
    norm_num [timerStep, hne, hov, htie, hexp2]
  · intro hov
    cases scorer <;> simp [goalEvent, hne, hov]

/-- Witness for C1 at concrete states: a tied score `2:2` expiring in
regulation, an untied `1:0` expiring in regulation, and a goal in overtime. -/
theorem matchPhaseTransitions_witness :
    ((timerStep ⟨2, 2, 5, false, false⟩ 16).overtime = true ∧
      (timerStep ⟨2, 2, 5, false, false⟩ 16).timeLeftMs = 30000 ∧
      (timerStep ⟨2, 2, 5, false, false⟩ 16).ended = false) ∧
    (timerStep ⟨1, 0, 5, false, false⟩ 16).ended = true ∧
    (goalEvent ⟨0, 0, 12000, true, false⟩ Side.left).ended = true := by
  refine ⟨?_, ?_, ?_⟩
  · exact (matchPhaseTransitions ⟨2, 2, 5, false, false⟩ 16 Side.left rfl).1
      rfl (by norm_num) rfl
  · exact (matchPhaseTransitions ⟨1, 0, 5, false, false⟩ 16 Side.left rfl).2.1
      rfl (by norm_num) (by decide)
  · exact (matchPhaseTransitions ⟨0, 0, 12000, true, false⟩ 16 Side.left rfl).2.2 rfl

/-- C2: after stepping the world, a ball x below `-0.5` makes the tick post
the goal message crediting the right side; above `WORLD_WIDTH + 0.5` the
tick posts the goal message crediting the left side; inside
`[-0.5, WORLD_WIDTH + 0.5]` the tick posts no goal message at all. -/
theorem goalSideAttribution (post : WorldState) :
    (post.ball.x < -(1/2) →
      stepWorld post = [Msg.goal Side.right, Msg.state resetState]) ∧
    (WORLD_WIDTH + 1/2 < post.ball.x →
      stepWorld post = [Msg.goal Side.left, Msg.state resetState]) ∧
    (-(1/2) ≤ post.ball.x → post.ball.x ≤ WORLD_WIDTH + 1/2 →
      stepWorld post = [Msg.state post]) := by
  refine ⟨?_, ?_, ?_⟩
  · intro h
    simp only [stepWorld, detectGoal]
    rw [if_pos h]
  · intro h
    have h1 : ¬ post.ball.x < -(1/2) := by
      simp only [WORLD_WIDTH] at h
      push_neg
      linarith
    simp only [stepWorld, detectGoal]
    rw [if_neg h1, if_pos h]
  · intro h1 h2
    simp only [stepWorld, detectGoal]
    rw [if_neg (not_lt.mpr h1), if_neg (not_lt.mpr h2)]

/-- Witness for C2: a ball at x = -1 yields the right-side goal message, at
x = 11 the left-side goal message, at x = 5 no goal message. -/
theorem goalSideAttribution_witness :
    stepWorld ⟨⟨-1, 1, 0, 0⟩, ⟨2, 1, 0, 0⟩, ⟨8, 1, 0, 0⟩⟩ =
      [Msg.goal Side.right, Msg.state resetState] ∧
    stepWorld ⟨⟨11, 1, 0, 0⟩, ⟨2, 1, 0, 0⟩, ⟨8, 1, 0, 0⟩⟩ =
      [Msg.goal Side.left, Msg.state resetState] ∧
    stepWorld ⟨⟨5, 1, 0, 0⟩, ⟨2, 1, 0, 0⟩, ⟨8, 1, 0, 0⟩⟩ =
      [Msg.state ⟨⟨5, 1, 0, 0⟩, ⟨2, 1, 0, 0⟩, ⟨8, 1, 0, 0⟩⟩] := by
  refine ⟨?_, ?_, ?_⟩
  · exact (goalSideAttribution ⟨⟨-1, 1, 0, 0⟩, ⟨2, 1, 0, 0⟩, ⟨8, 1, 0, 0⟩⟩).1
      (by norm_num)
  · exact (goalSideAttribution ⟨⟨11, 1, 0, 0⟩, ⟨2, 1, 0, 0⟩, ⟨8, 1, 0, 0⟩⟩).2.1
      (by norm_num [WORLD_WIDTH])
  · exact (goalSideAttribution ⟨⟨5, 1, 0, 0⟩, ⟨2, 1, 0, 0⟩, ⟨8, 1, 0, 0⟩⟩).2.2
      (by norm_num) (by norm_num [WORLD_WIDTH])

/-- C3: every tick posts exactly one state snapshot, and because the goal
branch resets positions before the snapshot is built, the snapshot's ball x
always lies within `[-0.5, WORLD_WIDTH + 0.5]`. -/
theorem snapshotInBoundsOncePerTick (post : WorldState) :
    ∃ snap, stateMsgs (stepWorld post) = [snap] ∧
      -(1/2) ≤ snap.ball.x ∧ snap.ball.x ≤ WORLD_WIDTH + 1/2 := by
  by_cases h1 : post.ball.x < -(1/2)
  · refine ⟨resetState, ?_, by norm_num [resetState, WORLD_WIDTH, WORLD_HEIGHT]⟩
    simp only [stepWorld, detectGoal]
    rw [if_pos h1]
    simp [stateMsgs]
  · by_cases h2 : post.ball.x > WORLD_WIDTH + 1/2
    · refine ⟨resetState, ?_, by norm_num [resetState, WORLD_WIDTH, WORLD_HEIGHT]⟩
      simp only [stepWorld, detectGoal]
      rw [if_neg h1, if_pos h2]
      simp [stateMsgs]
    · refine ⟨post, ?_, not_lt.mp h1, not_lt.mp h2⟩
      simp only [stepWorld, detectGoal]
      rw [if_neg h1, if_neg h2]
      simp [stateMsgs]

/-- C5: a jump command arriving while the body is above the resting-height
epsilon (`y > PLAYER_RADIUS + 0.05`) or with vertical speed above the
near-zero threshold (`|vy| > 0.1`) produces no velocity change: the handler
output is exactly the output for the same input without the jump flag, and
in particular the vertical velocity is unchanged. -/
theorem jumpGatingNoVelocityChange (b : Body2) (inp : Input)
    (hj : inp.jump = true)
    (hg : PLAYER_RADIUS + 1/20 < b.y ∨ 1/10 < |b.vy|) :
    handleInput b inp = handleInput b { inp with jump := false } ∧
    (handleInput b inp).vy = b.vy := by
  have hcond : ¬ (inp.jump = true ∧ b.y ≤ PLAYER_RADIUS + 1/20 ∧ |b.vy| < 1/10) := by
    rcases hg with h | h
    · exact fun hc => absurd hc.2.1 (not_le.mpr h)
    · exact fun hc => absurd hc.2.2 (not_lt.mpr (le_of_lt h))
  have hcond2 : ¬ ((({ inp with jump := false } : Input).jump = true) ∧
      b.y ≤ PLAYER_RADIUS + 1/20 ∧ |b.vy| < 1/10) := by
    simp
  constructor
  · simp only [handleInput]
    rw [if_neg hcond, if_neg hcond2]
  · simp only [handleInput]
    rw [if_neg hcond]

/-- Witness for C5: a body at height 2 (airborne) with upward velocity;
the jump flag leaves the handler output, and the vertical velocity,
untouched. -/
theorem jumpGatingNoVelocityChange_witness :
    handleInput ⟨4, 2, 0, 3⟩ ⟨false, false, true⟩ =
      handleInput ⟨4, 2, 0, 3⟩ ⟨false, false, false⟩ ∧
    (handleInput ⟨4, 2, 0, 3⟩ ⟨false, false, true⟩).vy = 3 :=
  jumpGatingNoVelocityChange ⟨4, 2, 0, 3⟩ ⟨false, false, true⟩ rfl
    (Or.inl (by norm_num [PLAYER_RADIUS]))

/-- C9 counterexample: the remaining time is NOT clamped at zero. A live
regulation state `1:0` with 100 ms left hit by a 5000 ms frame delta steps
to `timeLeftMs = -4900`, a negative value, and the `≤ 0` phase-transition
comparison was evaluated on that negative value. -/
theorem timerNegative_cex :
    (timerStep ⟨1, 0, 100, false, false⟩ 5000).timeLeftMs = -4900 ∧
    (timerStep ⟨1, 0, 100, false, false⟩ 5000).timeLeftMs < 0 := by
  have h : timerStep ⟨1, 0, 100, false, false⟩ 5000 =
      ⟨1, 0, -4900, false, true⟩ := by
    simp only [timerStep]
    norm_num
  rw [h]
  norm_num

/-- C9 amended: the decrement can drive the remaining time negative, but
the expiry comparisons use `≤ 0`, so a negative value is consumed by a
transition in the same frame: every post-step live (non-ended) state has
strictly positive remaining time. -/
theorem timerExpiryHandledSameFrame (s : MatchState) (δ : ℚ)
    (hne : s.ended = false) :
    (timerStep s δ).ended = true ∨ 0 < (timerStep s δ).timeLeftMs := by
  by_cases hexp : s.timeLeftMs - δ ≤ 0
  · have hexp2 : s.timeLeftMs ≤ δ := by linarith
    by_cases hov : s.overtime = true
    · left
      norm_num [timerStep, hne, hov, hexp2]
    · have hov2 : s.overtime = false := by simpa using hov
      by_cases htie : s.scoreLeft = s.scoreRight
      · right
        norm_num [timerStep, hne, hov2, htie, hexp2]
      · left
        norm_num [timerStep, hne, hov2, htie, hexp2]
  · right
    have hexp2 : ¬ s.timeLeftMs ≤ δ := by
      push_neg at hexp ⊢
      linarith
    have h3 := hexp
    push_neg at h3
    norm_num [timerStep, hne, hexp2]
    linarith

/-- Witness for C9's amended theorem at the counterexample state: the
5000 ms stall on a live `1:0` regulation state yields an ended state. -/
theorem timerExpiryHandledSameFrame_witness :
    (timerStep ⟨1, 0, 100, false, false⟩ 5000).ended = true ∨
    0 < (timerStep ⟨1, 0, 100, false, false⟩ 5000).timeLeftMs :=
  timerExpiryHandledSameFrame ⟨1, 0, 100, false, false⟩ 5000 rfl

/-- A concrete well-formed replay record used in the C4 counterexample. -/
def sampleRecord : ReplayRecord := ⟨0, "Rookie", "0:0", []⟩

/-- C4 counterexample: a persisted collection holding one well-formed
record and one malformed record loads as the empty list — the well-formed
record is NOT kept; the single malformed record empties the whole load. -/
theorem loadReplaysDropsAll_cex :
    loadReplays (some [some sampleRecord, none]) = [] := rfl

/-- C4 amended: the collection load is all-or-nothing. `loadReplays` wraps
`JSON.parse` of the entire persisted array in one try/catch, so any
malformed record resets the whole collection to `[]`; only a collection
whose every record parses is loaded, and then it is loaded in full. -/
theorem loadReplaysAllOrNothing (blobs : List (Option ReplayRecord)) :
    ((none : Option ReplayRecord) ∈ blobs → loadReplays (some blobs) = []) ∧
    ((∀ b ∈ blobs, b ≠ none) → loadReplays (some blobs) = blobs.reduceOption) := by
  have hfail : ∀ bs : List (Option ReplayRecord),
      (none : Option ReplayRecord) ∈ bs → parseReplays bs = none := by
    intro bs hbad
    induction bs with
    | nil => simp at hbad
    | cons hd tl ih =>
      cases hd with
      | none => simp [parseReplays]
      | some r =>
        have hmem : (none : Option ReplayRecord) ∈ tl := by
          rcases List.mem_cons.mp hbad with h | h
          · exact absurd h.symm (by simp)
          · exact h
        simp [parseReplays, ih hmem]
  have hok : ∀ bs : List (Option ReplayRecord), (∀ b ∈ bs, b ≠ none) →
      parseReplays bs = some bs.reduceOption := by
    intro bs hgood
    induction bs with
    | nil => simp [parseReplays]
    | cons hd tl ih =>
      cases hd with
      | none => exact absurd rfl (hgood none (List.mem_cons_self none tl))
      | some r =>
        have htl : ∀ b ∈ tl, b ≠ none := fun b hb => hgood b (List.mem_cons_of_mem _ hb)
        simp [parseReplays, ih htl]
  constructor
  · intro hbad
    simp [loadReplays, hfail blobs hbad]
  · intro hgood
    simp [loadReplays, hok blobs hgood]

/-- Witness for C4's amended theorem: a collection with a malformed entry
loads empty, and a fully well-formed one-record collection loads that
record. -/
theorem loadReplaysAllOrNothing_witness :
    loadReplays (some [some sampleRecord, none]) = [] ∧
    loadReplays (some [some sampleRecord]) = [sampleRecord] := by
  constructor
  · exact (loadReplaysAllOrNothing [some sampleRecord, none]).1 (by simp)
  · have h := (loadReplaysAllOrNothing [some sampleRecord]).2 (by simp)
    simpa using h

/-- The AI's per-entity intent object (`aiLastInput`): movement, jump and
super-jump flags. -/
structure Cmd where
  left : Bool
  right : Bool
  jump : Bool
  super : Bool
deriving DecidableEq, Repr

/-- The `aiLastInput` value at match start: all flags false. -/
def initialCmd : Cmd := ⟨false, false, false, false⟩

/-- One AI difficulty profile (`aiProfiles` entry). -/
structure AIProfile where
  reactionTime : ℚ
  aimError : ℚ
deriving DecidableEq, Repr

/-- The AI's per-match mutable state: `aiDecisionCountdown`, `aiLastInput`
and `superCooldown2`, initialised to `0`, all-false and `0`. -/
structure AIState where
  countdown : ℚ
  last : Cmd
  superCooldown : ℚ
deriving DecidableEq, Repr

/-- The random aim perturbation computed at a decision:
`(Math.random() - 0.5) * 2 * (aimError / 90)`, with `rand` standing for the
`Math.random()` draw. -/
def aimOffset (p : AIProfile) (rand : ℚ) : ℚ :=
  (rand - 1/2) * 2 * (p.aimError / 90)

/-- The decision's movement target: the ball's x linearly predicted 0.5 s
ahead, perturbed by the aim offset and clamped into `[0, WORLD_WIDTH]`
(`Math.min(Math.max(predictedX + err, 0), WORLD_WIDTH)`). -/
def aiTarget (p : AIProfile) (w : WorldState) (rand : ℚ) : ℚ :=
  min (max (w.ball.x + w.ball.vx * (1/2) + aimOffset p rand) 0) WORLD_WIDTH

/-- One consumer-frame AI step (the AI block of `update`): decrements the
decision countdown and the super cooldown by `deltaMS`; when the countdown
reaches `≤ 0`, resets it to `reactionTime * 1000` and recomputes
`aiLastInput` from the latest snapshot — movement from the dead-banded
comparison of the clamped target with the AI body's x, jump when the ball is
more than 0.3 above and within 0.5 horizontally, super when off cooldown and
the ball is more than 1.0 above and within 0.6 horizontally (resetting the
cooldown to 7000 ms). The command posted this frame is returned alongside
the new state: between decisions it is the previous `aiLastInput`,
re-sent unchanged. -/
def aiTick (p : AIProfile) (w : WorldState) (deltaMS rand : ℚ) (st : AIState) :
    AIState × Cmd :=
  let countdown := st.countdown - deltaMS
  let cooldown := max 0 (st.superCooldown - deltaMS)
  if countdown ≤ 0 then
    let targetX := aiTarget p w rand
    let l : Bool := if |targetX - w.p2.x| > 1/20 then decide (targetX < w.p2.x) else false
    let r : Bool := if |targetX - w.p2.x| > 1/20 then decide (targetX > w.p2.x) else false
    let j : Bool := decide (w.ball.y > w.p2.y + 3/10 ∧ |w.ball.x - w.p2.x| < 1/2)
    let fire : Bool :=
      decide (cooldown ≤ 0 ∧ w.ball.y > w.p2.y + 1 ∧ |w.ball.x - w.p2.x| < 3/5)
    let cmd : Cmd := ⟨l, r, j, fire⟩
    (⟨p.reactionTime * 1000, cmd, if fire then 7000 else cooldown⟩, cmd)
  else
    (⟨countdown, st.last, cooldown⟩, st.last)

/-- A sequence of consumer frames driving the AI: each frame carries the
latest snapshot, the frame's `deltaMS`, and the `Math.random()` draw that
would be used if a decision fires. Returns the final AI state and the
commands posted to the worker, one per frame, in order. -/
def aiRun (p : AIProfile) (st : AIState) :
    List (WorldState × ℚ × ℚ) → AIState × List Cmd
  | [] => (st, [])
  | t :: rest =>
    let r1 := aiTick p t.1 t.2.1 t.2.2 st
    let r2 := aiRun p r1.1 rest
    (r2.1, r1.2 :: r2.2)

/-- Helper: the deltas of a frame sequence. -/
def frameDeltas (ticks : List (WorldState × ℚ × ℚ)) : List ℚ :=
  ticks.map (fun t => t.2.1)

/-- Holding lemma behind C6: while the countdown stays positive (nonnegative
frame deltas summing to less than the countdown), every posted command is
the stored `aiLastInput`, unchanged, whatever the snapshots are. -/
theorem aiRun_holds_last (p : AIProfile) :
    ∀ (ticks : List (WorldState × ℚ × ℚ)) (st : AIState),
      (∀ d ∈ frameDeltas ticks, 0 ≤ d) →
      (frameDeltas ticks).sum < st.countdown →
      (aiRun p st ticks).2 = List.replicate ticks.length st.last ∧
      (aiRun p st ticks).1.last = st.last := by
  intro ticks
  induction ticks with
  | nil => intro st hpos hsum; exact ⟨rfl, rfl⟩
  | cons t rest ih =>
    intro st hpos hsum
    have hcons : frameDeltas (t :: rest) = t.2.1 :: frameDeltas rest := rfl
    have hd0 : 0 ≤ t.2.1 := hpos t.2.1 (hcons ▸ List.mem_cons_self _ _)
    have hpos2 : ∀ d ∈ frameDeltas rest, 0 ≤ d := fun d hd =>
      hpos d (hcons ▸ List.mem_cons_of_mem _ hd)
    have hrest0 : 0 ≤ (frameDeltas rest).sum := List.sum_nonneg hpos2
    have hsum2 : t.2.1 + (frameDeltas rest).sum < st.countdown := by
      rw [hcons, List.sum_cons] at hsum
      exact hsum
    have hpos' : ¬ (st.countdown - t.2.1 ≤ 0) := by
      push_neg
      linarith
    have htick : aiTick p t.1 t.2.1 t.2.2 st =
        (⟨st.countdown - t.2.1, st.last, max 0 (st.superCooldown - t.2.1)⟩, st.last) := by
      simp only [aiTick]
      rw [if_neg hpos']
    have hih := ih ⟨st.countdown - t.2.1, st.last, max 0 (st.superCooldown - t.2.1)⟩
      hpos2 (by simp only []; linarith)
    simp only [aiRun, htick]
    refine ⟨?_, hih.2⟩
    rw [List.length_cons, List.replicate_succ]
    simp [hih.1]

/-- C6: immediately after a decision the countdown is
`reactionTime * 1000`; for any following frames whose nonnegative deltas
sum to less than that, the AI re-sends the previously computed command
unchanged on every frame — it is blind to arbitrary snapshot changes until
`reactionTime * 1000` ms of consumer time has drained the countdown. -/
theorem aiCommandHeldBetweenDecisions (p : AIProfile) (st : AIState)
    (ticks : List (WorldState × ℚ × ℚ))
    (hcd : st.countdown = p.reactionTime * 1000)
    (hpos : ∀ d ∈ frameDeltas ticks, 0 ≤ d)
    (hsum : (frameDeltas ticks).sum < p.reactionTime * 1000) :
    (aiRun p st ticks).2 = List.replicate ticks.length st.last ∧
    (aiRun p st ticks).1.last = st.last :=
  aiRun_holds_last p ticks st hpos (by rw [hcd]; exact hsum)

/-- Concrete snapshots for the C6 witness: the ball on opposite sides of
the field, so a fresh decision would differ, yet the held command is
re-sent. -/
def snapA : WorldState := ⟨⟨1, 1, 0, 0⟩, ⟨2, 1, 0, 0⟩, ⟨8, 1, 0, 0⟩⟩

/-- Second concrete snapshot for the C6 witness. -/
def snapB : WorldState := ⟨⟨9, 4, 3, -1⟩, ⟨2, 1, 0, 0⟩, ⟨4, 1, 0, 0⟩⟩

/-- Witness for C6: Rookie profile (reaction 0.3 s), countdown 300 ms,
two 100 ms frames with wildly different snapshots — both frames re-send
the stored command. -/
theorem aiCommandHeldBetweenDecisions_witness :
    (aiRun ⟨3/10, 15⟩ ⟨300, ⟨true, false, false, false⟩, 0⟩
        [(snapA, 100, 1/2), (snapB, 150, 1/4)]).2 =
      List.replicate 2 ⟨true, false, false, false⟩ ∧
    (aiRun ⟨3/10, 15⟩ ⟨300, ⟨true, false, false, false⟩, 0⟩
        [(snapA, 100, 1/2), (snapB, 150, 1/4)]).1.last =
      ⟨true, false, false, false⟩ :=
  aiCommandHeldBetweenDecisions ⟨3/10, 15⟩ ⟨300, ⟨true, false, false, false⟩, 0⟩
    [(snapA, 100, 1/2), (snapB, 150, 1/4)] (by norm_num)
    (by intro d hd; simp [frameDeltas] at hd; rcases hd with h | h <;> norm_num [h])
    (by norm_num [frameDeltas])

/-- C7: at a decision instant (countdown drained), with a `Math.random()`
draw in `[0, 1]` and a nonnegative aim error, the aim offset lies in
`[-aimError/90, aimError/90]`; the target is the 0.5 s linear ball
prediction plus that offset, clamped into `[0, WORLD_WIDTH]`; `moveLeft`
is issued exactly when the signed difference target − own x is negative
with magnitude above the 0.05 dead-band, `moveRight` exactly when it is
positive with magnitude above the dead-band, and inside the dead-band
neither is issued. -/
theorem aiDecisionSpec (p : AIProfile) (w : WorldState) (deltaMS rand : ℚ)
    (st : AIState) (hdec : st.countdown - deltaMS ≤ 0)
    (hr0 : 0 ≤ rand) (hr1 : rand ≤ 1) (herr : 0 ≤ p.aimError) :
    |aimOffset p rand| ≤ p.aimError / 90 ∧
    aiTarget p w rand =
      min (max (w.ball.x + w.ball.vx * (1/2) + aimOffset p rand) 0) WORLD_WIDTH ∧
    0 ≤ aiTarget p w rand ∧ aiTarget p w rand ≤ WORLD_WIDTH ∧
    ((aiTick p w deltaMS rand st).2.left = true ↔
      aiTarget p w rand - w.p2.x < 0 ∧ 1/20 < |aiTarget p w rand - w.p2.x|) ∧
    ((aiTick p w deltaMS rand st).2.right = true ↔
      0 < aiTarget p w rand - w.p2.x ∧ 1/20 < |aiTarget p w rand - w.p2.x|) ∧
    (|aiTarget p w rand - w.p2.x| ≤ 1/20 →
      (aiTick p w deltaMS rand st).2.left = false ∧
      (aiTick p w deltaMS rand st).2.right = false) := by
  have habs : |aimOffset p rand| ≤ p.aimError / 90 := by
    have h1 : |rand - 1/2| ≤ 1/2 := by
      rw [abs_le]
      constructor <;> linarith
    have he : (0:ℚ) ≤ p.aimError / 90 := by linarith
    rw [aimOffset, abs_mul, abs_mul, abs_of_nonneg he, abs_two]
    nlinarith [abs_nonneg (rand - 1/2)]
  have hlo : 0 ≤ aiTarget p w rand := by
    rw [aiTarget]
    have : (0:ℚ) ≤ max (w.ball.x + w.ball.vx * (1/2) + aimOffset p rand) 0 :=
      le_max_right _ _
    rw [WORLD_WIDTH]
    rw [le_min_iff]
    exact ⟨this, by norm_num⟩
  have hhi : aiTarget p w rand ≤ WORLD_WIDTH := min_le_right _ _
  have hcmd : (aiTick p w deltaMS rand st).2 =
      ⟨if |aiTarget p w rand - w.p2.x| > 1/20 then decide (aiTarget p w rand < w.p2.x) else false,
        if |aiTarget p w rand - w.p2.x| > 1/20 then decide (aiTarget p w rand > w.p2.x) else false,
        decide (w.ball.y > w.p2.y + 3/10 ∧ |w.ball.x - w.p2.x| < 1/2),
        decide (max 0 (st.superCooldown - deltaMS) ≤ 0 ∧ w.ball.y > w.p2.y + 1 ∧
          |w.ball.x - w.p2.x| < 3/5)⟩ := by
    simp only [aiTick]
    rw [if_pos hdec]
  refine ⟨habs, rfl, hlo, hhi, ?_, ?_, ?_⟩
  · rw [hcmd]
    by_cases hband : |aiTarget p w rand - w.p2.x| > 1/20
    · simp only [if_pos hband, decide_eq_true_eq]
      constructor
      · intro h
        exact ⟨by linarith [sub_neg.mpr h], hband⟩
      · intro h
        linarith [sub_neg.mp h.1]
    · simp only [if_neg hband, Bool.false_eq_true, false_iff, not_and]
      intro _ hc
      exact absurd hc hband
  · rw [hcmd]
    by_cases hband : |aiTarget p w rand - w.p2.x| > 1/20
    · simp only [if_pos hband, decide_eq_true_eq]
      constructor
      · intro h
        exact ⟨by linarith [sub_pos.mpr h], hband⟩
      · intro h
        linarith [sub_pos.mp h.1]
    · simp only [if_neg hband, Bool.false_eq_true, false_iff, not_and]
      intro _ hc
      exact absurd hc hband
  · intro hband
    have hb : ¬ (|aiTarget p w rand - w.p2.x| > 1/20) := not_lt.mpr hband
    rw [hcmd]
    simp [hb]
    exact ⟨fun h => absurd h (by simpa using hb), fun h => absurd h (by simpa using hb)⟩

/-- Witness for C7: a decision instant on the Rookie profile with
`rand = 1/2` (zero offset), ball at x = 1 moving left, AI body at x = 8:
offset bound, target bounds, and the dead-band characterisations hold. -/
theorem aiDecisionSpec_witness :
    |aimOffset ⟨3/10, 15⟩ (1/2)| ≤ (15:ℚ) / 90 ∧
    aiTarget ⟨3/10, 15⟩ snapA (1/2) =
      min (max (snapA.ball.x + snapA.ball.vx * (1/2) + aimOffset ⟨3/10, 15⟩ (1/2)) 0)
        WORLD_WIDTH ∧
    0 ≤ aiTarget ⟨3/10, 15⟩ snapA (1/2) ∧
    aiTarget ⟨3/10, 15⟩ snapA (1/2) ≤ WORLD_WIDTH ∧
    ((aiTick ⟨3/10, 15⟩ snapA 100 (1/2) ⟨50, initialCmd, 0⟩).2.left = true ↔
      aiTarget ⟨3/10, 15⟩ snapA (1/2) - snapA.p2.x < 0 ∧
      1/20 < |aiTarget ⟨3/10, 15⟩ snapA (1/2) - snapA.p2.x|) ∧
    ((aiTick ⟨3/10, 15⟩ snapA 100 (1/2) ⟨50, initialCmd, 0⟩).2.right = true ↔
      0 < aiTarget ⟨3/10, 15⟩ snapA (1/2) - snapA.p2.x ∧
      1/20 < |aiTarget ⟨3/10, 15⟩ snapA (1/2) - snapA.p2.x|) ∧
    (|aiTarget ⟨3/10, 15⟩ snapA (1/2) - snapA.p2.x| ≤ 1/20 →
      (aiTick ⟨3/10, 15⟩ snapA 100 (1/2) ⟨50, initialCmd, 0⟩).2.left = false ∧
      (aiTick ⟨3/10, 15⟩ snapA 100 (1/2) ⟨50, initialCmd, 0⟩).2.right = false) :=
  aiDecisionSpec ⟨3/10, 15⟩ snapA 100 (1/2) ⟨50, initialCmd, 0⟩
    (by norm_num) (by norm_num) (by norm_num) (by norm_num)

/-- Exclusivity lemma behind C10: a freshly decided command never has both
horizontal flags set, and each flag tracks the strict side of the target. -/
theorem aiTick_decision_exclusive (p : AIProfile) (w : WorldState)
    (deltaMS rand : ℚ) (st : AIState) (hdec : st.countdown - deltaMS ≤ 0) :
    ((aiTick p w deltaMS rand st).2.left = true → aiTarget p w rand < w.p2.x) ∧
    ((aiTick p w deltaMS rand st).2.right = true → w.p2.x < aiTarget p w rand) ∧
    (((aiTick p w deltaMS rand st).2.left &&
      (aiTick p w deltaMS rand st).2.right) = false) := by
  have hcmd : (aiTick p w deltaMS rand st).2 =
      ⟨if |aiTarget p w rand - w.p2.x| > 1/20 then decide (aiTarget p w rand < w.p2.x) else false,
        if |aiTarget p w rand - w.p2.x| > 1/20 then decide (aiTarget p w rand > w.p2.x) else false,
        decide (w.ball.y > w.p2.y + 3/10 ∧ |w.ball.x - w.p2.x| < 1/2),
        decide (max 0 (st.superCooldown - deltaMS) ≤ 0 ∧ w.ball.y > w.p2.y + 1 ∧
          |w.ball.x - w.p2.x| < 3/5)⟩ := by
    simp only [aiTick]
    rw [if_pos hdec]
  rw [hcmd]
  by_cases hband : |aiTarget p w rand - w.p2.x| > 1/20
  · simp only [if_pos hband, decide_eq_true_eq]
    refine ⟨fun h => h, fun h => h, ?_⟩
    by_cases hlt : aiTarget p w rand < w.p2.x
    · have : ¬ (aiTarget p w rand > w.p2.x) := by linarith
      simp [hlt, this]
    · simp [hlt]
  · simp only [if_neg hband]
    refine ⟨fun h => ?_, fun h => ?_, by simp⟩
    · exact absurd h (by simp)
    · exact absurd h (by simp)

/-- Cmd-trace invariant behind C10: if the stored command has exclusive
horizontal flags, every command posted along any frame sequence does too. -/
theorem aiRun_exclusive (p : AIProfile) :
    ∀ (ticks : List (WorldState × ℚ × ℚ)) (st : AIState),
      (st.last.left && st.last.right) = false →
      ∀ c ∈ (aiRun p st ticks).2, (c.left && c.right) = false := by
  intro ticks
  induction ticks with
  | nil => intro st hst c hc; simp [aiRun] at hc
  | cons t rest ih =>
    intro st hst c hc
    simp only [aiRun, List.mem_cons] at hc
    rcases hc with hc | hc
    · by_cases hdec : st.countdown - t.2.1 ≤ 0
      · have := (aiTick_decision_exclusive p t.1 t.2.1 t.2.2 st hdec).2.2
        rw [hc]
        exact this
      · have htick : (aiTick p t.1 t.2.1 t.2.2 st).2 = st.last := by
          simp only [aiTick]
          rw [if_neg hdec]
        rw [hc, htick]
        exact hst
    · by_cases hdec : st.countdown - t.2.1 ≤ 0
      · have hnew : ((aiTick p t.1 t.2.1 t.2.2 st).1.last.left &&
            (aiTick p t.1 t.2.1 t.2.2 st).1.last.right) = false := by
          have h1 : (aiTick p t.1 t.2.1 t.2.2 st).1.last =
              (aiTick p t.1 t.2.1 t.2.2 st).2 := by
            simp only [aiTick]
            rw [if_pos hdec]
          rw [h1]
          exact (aiTick_decision_exclusive p t.1 t.2.1 t.2.2 st hdec).2.2
        exact ih (aiTick p t.1 t.2.1 t.2.2 st).1 hnew c hc
      · have htick : (aiTick p t.1 t.2.1 t.2.2 st).1 =
            ⟨st.countdown - t.2.1, st.last, max 0 (st.superCooldown - t.2.1)⟩ := by
          simp only [aiTick]
          rw [if_neg hdec]
        refine ih (aiTick p t.1 t.2.1 t.2.2 st).1 ?_ c hc
        rw [htick]
        exact hst

/-- C10: at any decision instant `moveLeft` is set only when the target is
strictly left of the AI body and `moveRight` only when it is strictly
right; consequently, starting from the all-false initial `aiLastInput`,
no command the AI ever posts has both horizontal directions true. -/
theorem aiHorizontalExclusive (p : AIProfile) :
    (∀ (w : WorldState) (deltaMS rand : ℚ) (st : AIState),
      st.countdown - deltaMS ≤ 0 →
      ((aiTick p w deltaMS rand st).2.left = true → aiTarget p w rand < w.p2.x) ∧
      ((aiTick p w deltaMS rand st).2.right = true → w.p2.x < aiTarget p w rand)) ∧
    (∀ (ticks : List (WorldState × ℚ × ℚ)),
      ∀ c ∈ (aiRun p ⟨0, initialCmd, 0⟩ ticks).2, (c.left && c.right) = false) := by
  constructor
  · intro w deltaMS rand st hdec
    exact ⟨(aiTick_decision_exclusive p w deltaMS rand st hdec).1,
      (aiTick_decision_exclusive p w deltaMS rand st hdec).2.1⟩
  · intro ticks c hc
    exact aiRun_exclusive p ticks ⟨0, initialCmd, 0⟩ rfl c hc

/-- Witness for C10 on the Rookie profile: the decision-side implications
at a concrete decision instant, and exclusivity along a concrete two-frame
trace from the initial AI state. -/
theorem aiHorizontalExclusive_witness :
    (((aiTick ⟨3/10, 15⟩ snapA 100 (1/2) ⟨50, initialCmd, 0⟩).2.left = true →
      aiTarget ⟨3/10, 15⟩ snapA (1/2) < snapA.p2.x) ∧
     ((aiTick ⟨3/10, 15⟩ snapA 100 (1/2) ⟨50, initialCmd, 0⟩).2.right = true →
      snapA.p2.x < aiTarget ⟨3/10, 15⟩ snapA (1/2))) ∧
    (∀ c ∈ (aiRun ⟨3/10, 15⟩ ⟨0, initialCmd, 0⟩
        [(snapA, 100, 1/2), (snapB, 100, 1/4)]).2, (c.left && c.right) = false) :=
  ⟨(aiHorizontalExclusive ⟨3/10, 15⟩).1 snapA 100 (1/2) ⟨50, initialCmd, 0⟩
      (by norm_num),
    fun c hc => (aiHorizontalExclusive ⟨3/10, 15⟩).2
      [(snapA, 100, 1/2), (snapB, 100, 1/4)] c hc⟩

/-- Playback bookkeeping of `playReplay`: the surplus-retaining `elapsed`
accumulator and `currentIndex`, both starting at 0. -/
structure PlayState where
  elapsed : ℚ
  idx : Nat
deriving DecidableEq, Repr

/-- The playback `frameDuration = 100 / speed`: the recorded sampling interval of
100 ms divided by the playback speed multiplier. -/
def frameDuration (speed : ℚ) : ℚ := 100 / speed

/-- The inner `while (elapsed >= frameDuration && currentIndex < totalFrames)`
loop of the playback `update`: repeatedly applies the frame at
`currentIndex`, subtracting `frameDuration` from the accumulator (keeping
the surplus) and advancing the index. Returns the final accumulator, the
final index and the frames applied, in application order. -/
def drainFrames (frames : List ReplayFrame) (fd : ℚ) (elapsed : ℚ) (idx : Nat) :
    ℚ × Nat × List ReplayFrame :=
  if h : fd ≤ elapsed ∧ idx < frames.length then
    let rest := drainFrames frames fd (elapsed - fd) (idx + 1)
    (rest.1, rest.2.1, frames.get ⟨idx, h.2⟩ :: rest.2.2)
  else (elapsed, idx, [])
termination_by frames.length - idx
decreasing_by simp_wf; omega

/-- One consumer frame of the playback `update`: if the index has reached
the end the replay is finished and nothing further happens; otherwise the
frame's `deltaMS` is added to the accumulator and the while loop drains it.
Returns the new state and the frames applied this consumer frame. -/
def playTick (frames : List ReplayFrame) (fd : ℚ) (st : PlayState) (dt : ℚ) :
    PlayState × List ReplayFrame :=
  if frames.length ≤ st.idx then (st, [])
  else
    let d := drainFrames frames fd (st.elapsed + dt) st.idx
    (⟨d.1, d.2.1⟩, d.2.2)

/-- Playback over a sequence of consumer-frame deltas, collecting all
applied frames in order. -/
def playRun (frames : List ReplayFrame) (fd : ℚ) (st : PlayState) :
    List ℚ → PlayState × List ReplayFrame
  | [] => (st, [])
  | dt :: rest =>
    let r1 := playTick frames fd st dt
    let r2 := playRun frames fd r1.1 rest
    (r2.1, r1.2 ++ r2.2)

/-- Reachability invariant of the playback state after `C` ms of consumer
time: the index never passes the end; while frames remain the accumulator
is exactly the consumer time not yet spent on applied frames, nonnegative
and below one frame duration; once finished, at least `length * fd` ms of
consumer time had accumulated. -/
def playInv (frames : List ReplayFrame) (fd : ℚ) (C : ℚ) (st : PlayState) : Prop :=
  st.idx ≤ frames.length ∧
  (st.idx < frames.length →
    st.elapsed = C - st.idx * fd ∧ 0 ≤ st.elapsed ∧ st.elapsed < fd) ∧
  (st.idx = frames.length → (frames.length : ℚ) * fd ≤ C)

/-- Specification of the drain loop: it applies the contiguous block of
frames from the entry index to the exit index, consumes exactly one frame
duration of accumulator per applied frame (surplus retained), never leaves
the accumulator negative, and only stops early (before the end) with less
than one frame duration left. -/
theorem drainFrames_spec (frames : List ReplayFrame) (fd : ℚ) (hfd : 0 < fd) :
    ∀ (n idx : Nat) (elapsed : ℚ), frames.length - idx = n →
      idx ≤ frames.length → 0 ≤ elapsed →
      idx ≤ (drainFrames frames fd elapsed idx).2.1 ∧
      (drainFrames frames fd elapsed idx).2.1 ≤ frames.length ∧
      (drainFrames frames fd elapsed idx).2.2 =
        (frames.drop idx).take ((drainFrames frames fd elapsed idx).2.1 - idx) ∧
      (drainFrames frames fd elapsed idx).1 =
        elapsed - (((drainFrames frames fd elapsed idx).2.1 - idx : Nat) : ℚ) * fd ∧
      0 ≤ (drainFrames frames fd elapsed idx).1 ∧
      ((drainFrames frames fd elapsed idx).2.1 < frames.length →
        (drainFrames frames fd elapsed idx).1 < fd) := by
  intro n
  induction n with
  | zero =>
    intro idx elapsed hn hle he
    have hidx : idx = frames.length := by omega
    have hcond : ¬ (fd ≤ elapsed ∧ idx < frames.length) := by
      intro hc
      omega
    have hstep : drainFrames frames fd elapsed idx = (elapsed, idx, []) := by
      rw [drainFrames, dif_neg hcond]
    rw [hstep]
    dsimp only
    refine ⟨le_refl _, hle, by simp, by simp, he, ?_⟩
    intro hlt
    omega
  | succ n ih =>
    intro idx elapsed hn hle he
    by_cases hcond : fd ≤ elapsed ∧ idx < frames.length
    · have hstep : drainFrames frames fd elapsed idx =
          ((drainFrames frames fd (elapsed - fd) (idx + 1)).1,
            (drainFrames frames fd (elapsed - fd) (idx + 1)).2.1,
            frames.get ⟨idx, hcond.2⟩ ::
              (drainFrames frames fd (elapsed - fd) (idx + 1)).2.2) := by
        rw [drainFrames, dif_pos hcond]
      rw [hstep]
      dsimp only
      have hrec := ih (idx + 1) (elapsed - fd) (by omega) (by omega) (by linarith [hcond.1])
      obtain ⟨h1, h2, h3, h4, h5, h6⟩ := hrec
      refine ⟨by omega, h2, ?_, ?_, h5, h6⟩
      · have hdrop : frames.drop idx =
            frames.get ⟨idx, hcond.2⟩ :: frames.drop (idx + 1) := by
          rw [List.drop_eq_getElem_cons hcond.2]
          simp
        have hc : (drainFrames frames fd (elapsed - fd) (idx + 1)).2.1 - idx =
            ((drainFrames frames fd (elapsed - fd) (idx + 1)).2.1 - (idx + 1)) + 1 := by
          omega
        rw [hdrop, hc, List.take_succ_cons, h3]
      · have hc : (drainFrames frames fd (elapsed - fd) (idx + 1)).2.1 - idx =
            ((drainFrames frames fd (elapsed - fd) (idx + 1)).2.1 - (idx + 1)) + 1 := by
          omega
        rw [hc, h4]
        push_cast
        ring
    · have hstep : drainFrames frames fd elapsed idx = (elapsed, idx, []) := by
        rw [drainFrames, dif_neg hcond]
      rw [hstep]
      refine ⟨le_refl _, hle, by simp, by simp, he, ?_⟩
      intro hlt
      rcases not_and_or.mp hcond with h | h
      · exact lt_of_not_le h
      · exact absurd hlt h

/-- One playback frame preserves the invariant and applies exactly the
contiguous block of recorded frames between the old and new index. -/
theorem playTick_spec (frames : List ReplayFrame) (fd : ℚ) (hfd : 0 < fd)
    (C : ℚ) (st : PlayState) (dt : ℚ) (hinv : playInv frames fd C st)
    (hdt : 0 ≤ dt) :
    playInv frames fd (C + dt) (playTick frames fd st dt).1 ∧
    st.idx ≤ (playTick frames fd st dt).1.idx ∧
    (playTick frames fd st dt).2 =
      (frames.drop st.idx).take ((playTick frames fd st dt).1.idx - st.idx) := by
  obtain ⟨hle, hrun, hdone⟩ := hinv
  by_cases hfin : frames.length ≤ st.idx
  · have hidx : st.idx = frames.length := by omega
    have hstep : playTick frames fd st dt = (st, []) := by
      rw [playTick, if_pos hfin]
    rw [hstep]
    dsimp only
    refine ⟨⟨hle, ?_, ?_⟩, le_refl _, by simp⟩
    · intro h
      omega
    · intro _
      linarith [hdone hidx]
  · push_neg at hfin
    obtain ⟨heq, he0, hef⟩ := hrun hfin
    have he : 0 ≤ st.elapsed + dt := by linarith
    have hspec := drainFrames_spec frames fd hfd (frames.length - st.idx) st.idx
      (st.elapsed + dt) rfl (by omega) he
    obtain ⟨h1, h2, h3, h4, h5, h6⟩ := hspec
    have hstep : playTick frames fd st dt =
        (⟨(drainFrames frames fd (st.elapsed + dt) st.idx).1,
          (drainFrames frames fd (st.elapsed + dt) st.idx).2.1⟩,
          (drainFrames frames fd (st.elapsed + dt) st.idx).2.2) := by
      rw [playTick, if_neg (not_le.mpr hfin)]
    rw [hstep]
    dsimp only
    refine ⟨⟨h2, ?_, ?_⟩, h1, h3⟩
    · intro hlt
      refine ⟨?_, h5, h6 hlt⟩
      have hcast : (((drainFrames frames fd (st.elapsed + dt) st.idx).2.1 - st.idx : Nat) : ℚ) =
          ((drainFrames frames fd (st.elapsed + dt) st.idx).2.1 : ℚ) - (st.idx : ℚ) := by
        push_cast [Nat.cast_sub h1]
        ring
      rw [h4, hcast]
      linear_combination heq
    · intro hend
      have hcast : (((drainFrames frames fd (st.elapsed + dt) st.idx).2.1 - st.idx : Nat) : ℚ) =
          ((drainFrames frames fd (st.elapsed + dt) st.idx).2.1 : ℚ) - (st.idx : ℚ) := by
        push_cast [Nat.cast_sub h1]
        ring
      have h7 := h5
      rw [h4, hcast] at h7
      have hend2 : ((drainFrames frames fd (st.elapsed + dt) st.idx).2.1 : ℚ) =
          (frames.length : ℚ) := by
        exact_mod_cast congrArg (Nat.cast : Nat → ℚ) hend
      rw [hend2] at h7
      have hexpand : ((frames.length : ℚ) - (st.idx : ℚ)) * fd =
          (frames.length : ℚ) * fd - (st.idx : ℚ) * fd := by
        ring
      rw [hexpand] at h7
      linarith

/-- Playback over a delta sequence preserves the invariant and emits the
contiguous block of recorded frames between start and final index. -/
theorem playRun_spec (frames : List ReplayFrame) (fd : ℚ) (hfd : 0 < fd) :
    ∀ (deltas : List ℚ) (C : ℚ) (st : PlayState), playInv frames fd C st →
      (∀ d ∈ deltas, 0 ≤ d) →
      playInv frames fd (C + deltas.sum) (playRun frames fd st deltas).1 ∧
      st.idx ≤ (playRun frames fd st deltas).1.idx ∧
      (playRun frames fd st deltas).2 =
        (frames.drop st.idx).take ((playRun frames fd st deltas).1.idx - st.idx) := by
  intro deltas
  induction deltas with
  | nil =>
    intro C st hinv hpos
    refine ⟨by simpa using hinv, le_refl _, by simp [playRun]⟩
  | cons dt rest ih =>
    intro C st hinv hpos
    have hdt : 0 ≤ dt := hpos dt (List.mem_cons_self _ _)
    have hrest : ∀ d ∈ rest, 0 ≤ d := fun d hd => hpos d (List.mem_cons_of_mem _ hd)
    obtain ⟨hi1, hi2, hi3⟩ := playTick_spec frames fd hfd C st dt hinv hdt
    obtain ⟨hj1, hj2, hj3⟩ := ih (C + dt) (playTick frames fd st dt).1 hi1 hrest
    have hsum : C + dt + rest.sum = C + (dt :: rest).sum := by
      rw [List.sum_cons]
      ring
    refine ⟨by rwa [hsum] at hj1, ?_, ?_⟩
    · simp only [playRun]
      omega
    · simp only [playRun]
      rw [hi3, hj3]
      have hmid := hi2
      have hfin := hj2
      have htake : ∀ (i j k : Nat), i ≤ j → j ≤ k →
          (frames.drop i).take (j - i) ++ (frames.drop j).take (k - j) =
          (frames.drop i).take (k - i) := by
        intro i j k hij hjk
        have hk : k - i = (j - i) + (k - j) := by omega
        rw [hk, List.take_add]
        congr 1
        rw [List.drop_drop]
        congr 2
        omega
      exact htake st.idx (playTick frames fd st dt).1.idx
        (playRun frames fd (playTick frames fd st dt).1 rest).1.idx hmid hfin

/-- C8: for a recorded replay of at least 2 frames and any speed `s > 0`,
playback from the initial state over nonnegative consumer-frame deltas
applies exactly a prefix of the recorded frame sequence in order (no frame
skipped or duplicated); the number of applied frames `n` satisfies
`n * (100/s) ≤ elapsed` and, while frames remain, `elapsed < (n+1) * (100/s)`
— i.e. the `i`-th frame (1-based) is applied exactly once
`i * samplingIntervalMs / s` of consumer time has elapsed, via the
surplus-retaining accumulator — and once `length * (100/s)` has elapsed the
applied sequence is the entire recording. -/
theorem playReplayEmitsRecordedSequence (frames : List ReplayFrame) (speed : ℚ)
    (deltas : List ℚ) (hlen : 2 ≤ frames.length) (hs : 0 < speed)
    (hd : ∀ d ∈ deltas, 0 ≤ d) :
    (playRun frames (frameDuration speed) ⟨0, 0⟩ deltas).2 =
      frames.take (playRun frames (frameDuration speed) ⟨0, 0⟩ deltas).1.idx ∧
    (playRun frames (frameDuration speed) ⟨0, 0⟩ deltas).1.idx ≤ frames.length ∧
    ((playRun frames (frameDuration speed) ⟨0, 0⟩ deltas).1.idx : ℚ) *
        frameDuration speed ≤ deltas.sum ∧
    ((playRun frames (frameDuration speed) ⟨0, 0⟩ deltas).1.idx < frames.length →
      deltas.sum < (((playRun frames (frameDuration speed) ⟨0, 0⟩ deltas).1.idx : ℚ) + 1) *
        frameDuration speed) ∧
    ((frames.length : ℚ) * frameDuration speed ≤ deltas.sum →
      (playRun frames (frameDuration speed) ⟨0, 0⟩ deltas).2 = frames) := by
  have hfd : 0 < frameDuration speed := by
    rw [frameDuration]
    positivity
  have hinv0 : playInv frames (frameDuration speed) 0 ⟨0, 0⟩ := by
    refine ⟨Nat.zero_le _, ?_, ?_⟩
    · intro _
      refine ⟨by simp, le_refl _, hfd⟩
    · intro h
      simp [← h]
  obtain ⟨hinv, hmono, hemit⟩ :=
    playRun_spec frames (frameDuration speed) hfd deltas 0 ⟨0, 0⟩ hinv0 hd
  obtain ⟨hle, hrun, hdone⟩ := hinv
  have hemit2 : (playRun frames (frameDuration speed) ⟨0, 0⟩ deltas).2 =
      frames.take (playRun frames (frameDuration speed) ⟨0, 0⟩ deltas).1.idx := by
    simpa using hemit
  refine ⟨hemit2, hle, ?_, ?_, ?_⟩
  · by_cases hfin :
      (playRun frames (frameDuration speed) ⟨0, 0⟩ deltas).1.idx < frames.length
    · obtain ⟨heq, he0, _⟩ := hrun hfin
      rw [heq] at he0
      rw [zero_add] at he0
      linarith
    · have hidx : (playRun frames (frameDuration speed) ⟨0, 0⟩ deltas).1.idx =
          frames.length := by omega
      have := hdone hidx
      rw [zero_add] at this
      rw [hidx]
      linarith
  · intro hfin
    obtain ⟨heq, _, hef⟩ := hrun hfin
    rw [heq, zero_add] at hef
    linarith
  · intro htime
    by_cases hfin :
      (playRun frames (frameDuration speed) ⟨0, 0⟩ deltas).1.idx < frames.length
    · obtain ⟨heq, _, hef⟩ := hrun hfin
      rw [heq, zero_add] at hef
      have hstep : ((playRun frames (frameDuration speed) ⟨0, 0⟩ deltas).1.idx : ℚ) + 1 ≤
          (frames.length : ℚ) := by
        exact_mod_cast Nat.succ_le_of_lt hfin
      nlinarith
    · have hidx : (playRun frames (frameDuration speed) ⟨0, 0⟩ deltas).1.idx =
          frames.length := by omega
      rw [hemit2, hidx, List.take_length]

/-- First concrete frame for the C8 witness. -/
def frame0 : ReplayFrame := ⟨⟨5, 4⟩, ⟨2, 1⟩, ⟨8, 1⟩, 0, 0, 90000⟩

/-- Second concrete frame for the C8 witness. -/
def frame1 : ReplayFrame := ⟨⟨52/10, 38/10⟩, ⟨21/10, 1⟩, ⟨79/10, 1⟩, 0, 0, 89900⟩

/-- Witness for C8: a two-frame recording at speed 1 driven by a single
250 ms consumer frame. -/
theorem playReplayEmitsRecordedSequence_witness :
    (playRun [frame0, frame1] (frameDuration 1) ⟨0, 0⟩ [250]).2 =
      [frame0, frame1].take
        (playRun [frame0, frame1] (frameDuration 1) ⟨0, 0⟩ [250]).1.idx ∧
    (playRun [frame0, frame1] (frameDuration 1) ⟨0, 0⟩ [250]).1.idx ≤
      ([frame0, frame1] : List ReplayFrame).length ∧
    ((playRun [frame0, frame1] (frameDuration 1) ⟨0, 0⟩ [250]).1.idx : ℚ) *
        frameDuration 1 ≤ ([(250 : ℚ)] : List ℚ).sum ∧
    ((playRun [frame0, frame1] (frameDuration 1) ⟨0, 0⟩ [250]).1.idx <
        ([frame0, frame1] : List ReplayFrame).length →
      ([(250 : ℚ)] : List ℚ).sum <
        (((playRun [frame0, frame1] (frameDuration 1) ⟨0, 0⟩ [250]).1.idx : ℚ) + 1) *
          frameDuration 1) ∧
    ((([frame0, frame1] : List ReplayFrame).length : ℚ) * frameDuration 1 ≤
        ([(250 : ℚ)] : List ℚ).sum →
      (playRun [frame0, frame1] (frameDuration 1) ⟨0, 0⟩ [250]).2 = [frame0, frame1]) :=
  playReplayEmitsRecordedSequence [frame0, frame1] 1 [250] (by simp)
    (by norm_num) (by intro d hd; simp at hd; norm_num [hd])

end Football
